import Mathlib

/-!
Verification of the resource-list (reslist) subsystem declared in
`src/util.h`.  Only the header is present in the repository snapshot, so
the operational behaviour of the reslist machinery is modelled from the
specification and the header's own documentation comments.

Records and actions are identified by natural numbers; a running action is
recorded as a pair `(rid, action)` of the record's identity and its bound
action, so "which record's action ran, and in which order" is observable.
-/

/-- Modelled from the spec: the children of a Resource List.  `src/util.h`
declares `struct resource` as a tagged node (`RES_RESLIST_ONHEAP`,
`RES_RESLIST_ONSTACK`, `RES_CLEANUP`) on a circular doubly-linked list;
the implementation (`util.c`) is not in the snapshot.  We model a list's
contents as a head-first Lean list whose entries are either cleanup
records (`cl`, with an optional committed action) or child reslists
(`rl`, with their own contents). -/
inductive Entry : Type where
  | cl (rid : Nat) (action : Option Nat)
  | rl (rid : Nat) (children : List Entry)

/-- Modelled from the spec: `reslist_destroy` "Cleans up all resources
owned by that reslist"; teardown proceeds head-to-tail, running each
committed cleanup record's action, skipping uncommitted records, and
recursively destroying child reslists.  The result is the trace of
`(rid, action)` pairs in the order the actions run. -/
def reslist_destroy : List Entry → List (Nat × Nat)
  | [] => []
  | .cl _ none :: es => reslist_destroy es
  | .cl i (some a) :: es => (i, a) :: reslist_destroy es
  | .rl _ cs :: es => reslist_destroy cs ++ reslist_destroy es

/-- The actions contributed by a single entry during teardown. -/
def entry_actions : Entry → List (Nat × Nat)
  | .cl _ none => []
  | .cl i (some a) => [(i, a)]
  | .rl _ cs => reslist_destroy cs

/-- Unlink the cleanup record with identity `i` from a list, wherever it
sits (in the C code a record unlinks via its own prev/next pointers, so
removal reaches it even inside a child list). -/
def removeRec (i : Nat) : List Entry → List Entry
  | [] => []
  | .cl j a :: es =>
      if j = i then removeRec i es else .cl j a :: removeRec i es
  | .rl j cs :: es => .rl j (removeRec i cs) :: removeRec i es

/-- All cleanup-record identities in a forest, children included. -/
def clRids : List Entry → List Nat
  | [] => []
  | .cl j _ :: es => j :: clRids es
  | .rl _ cs :: es => clRids cs ++ clRids es

/-- The identities of committed cleanup records, children included. -/
def committedClRids : List Entry → List Nat
  | [] => []
  | .cl j (some _) :: es => j :: committedClRids es
  | .cl _ none :: es => committedClRids es
  | .rl _ cs :: es => committedClRids cs ++ committedClRids es

/-- Modelled from the spec: `cleanup_allocate` attaches a fresh cleanup
record, with no action bound, at the head of the current reslist. -/
def cleanup_allocate (rid : Nat) (cur : List Entry) : List Entry :=
  .cl rid none :: cur

/-- Modelled from the spec: `cleanup_commit` binds the action and
re-inserts the record at the head of the current reslist ("When a cleanup
object is allocated to a resource, it is re-inserted at the head of the
current reslist", `src/util.h`).  It cannot fail: in the model it is a
total function. -/
def cleanup_commit (rid a : Nat) (cur : List Entry) : List Entry :=
  .cl rid (some a) :: removeRec rid cur

/-- Modelled from the spec: `cleanup_forget` deregisters and deallocates
the given cleanup object, running no action; "If CL is NULL, do nothing"
(`src/util.h`).  The `Option` argument models the possibly-NULL
pointer. -/
def cleanup_forget : Option Nat → List Entry → List Entry
  | none, cur => cur
  | some i, cur => removeRec i cur

/-- Modelled from the spec: `reslist_xfer` splices the donor's resources
in-order onto the head of the recipient ("DONOR's resources are spliced
in-order to the head of RECIPIENT", `src/util.h`), leaving the donor
empty and running no cleanup actions.  The result is
`((recipient', donor'), trace-of-actions-run)`. -/
def reslist_xfer (recipient donor : List Entry) :
    (List Entry × List Entry) × List (Nat × Nat) :=
  ((donor ++ recipient, []), [])

theorem reslist_destroy_append (xs ys : List Entry) :
    reslist_destroy (xs ++ ys) = reslist_destroy xs ++ reslist_destroy ys := by
  induction xs with
  | nil => simp [reslist_destroy]
  | cons e es ih =>
      cases e with
      | cl j a => cases a <;> simp [reslist_destroy, ih]
      | rl j cs => simp [reslist_destroy, ih]

theorem destroy_map_fst (es : List Entry) :
    (reslist_destroy es).map Prod.fst = committedClRids es := by
  induction es using reslist_destroy.induct <;>
    simp_all [reslist_destroy, committedClRids, reslist_destroy_append]

theorem committed_sublist (es : List Entry) :
    List.Sublist (committedClRids es) (clRids es) := by
  induction es using committedClRids.induct <;>
    simp_all [committedClRids, clRids]
  case _ ih1 ih2 => exact (ih1.append ih2)

theorem removeRec_append (i : Nat) (xs ys : List Entry) :
    removeRec i (xs ++ ys) = removeRec i xs ++ removeRec i ys := by
  induction xs with
  | nil => simp [removeRec]
  | cons e es ih =>
      cases e with
      | cl j a =>
          by_cases h : j = i <;> simp [removeRec, h, ih]
      | rl j cs => simp [removeRec, ih]

theorem removeRec_reverse (i : Nat) (xs : List Entry) :
    removeRec i xs.reverse = (removeRec i xs).reverse := by
  induction xs with
  | nil => simp [removeRec]
  | cons e es ih =>
      cases e with
      | cl j a =>
          by_cases h : j = i <;>
            simp [removeRec, removeRec_append, h, ih]
      | rl j cs => simp [removeRec, removeRec_append, ih]

theorem not_mem_clRids_removeRec (i : Nat) (es : List Entry) :
    i ∉ clRids (removeRec i es) := by
  induction es using removeRec.induct i <;>
    simp_all [removeRec, clRids]
  case _ j a es hne ih => exact fun h => hne h.symm

theorem removeRec_eq_self (i : Nat) (es : List Entry) (h : i ∉ clRids es) :
    removeRec i es = es := by
  induction es using removeRec.induct i <;>
    simp_all [removeRec, clRids]

/-- Modelled from the spec: one attachment step performed on the current
reslist — allocating a cleanup record, committing it to an action,
forgetting it, or creating a child reslist and populating it (with the
child made current for its own attachment sequence, as
`WITH_CURRENT_RESLIST` arranges). -/
inductive Att : Type where
  | allocate (rid : Nat)
  | commit (rid : Nat) (a : Nat)
  | forget (rid : Nat)
  | child (rid : Nat) (atts : List Att)

/-- Run an attachment sequence against the current reslist's contents,
using the modelled `cleanup_allocate` / `cleanup_commit` /
`cleanup_forget` operations; a `child` attachment creates an empty child
reslist, populates it with its own sequence, and attaches it at the
head. -/
def runAtts (atts : List Att) (cur : List Entry) : List Entry :=
  match atts with
  | [] => cur
  | .allocate i :: rest => runAtts rest (cleanup_allocate i cur)
  | .commit i a :: rest => runAtts rest (cleanup_commit i a cur)
  | .forget i :: rest => runAtts rest (cleanup_forget (some i) cur)
  | .child i as :: rest => runAtts rest (Entry.rl i (runAtts as []) :: cur)

/-- Specification-side chronological machine: the same attachment
sequence, but keeping the surviving attachments in chronological order
(earliest first) instead of head-insertion order.  A commit removes the
record from its allocation-time position and records it at the commit
instant; a forgotten record disappears. -/
def chronRun (atts : List Att) (cur : List Entry) : List Entry :=
  match atts with
  | [] => cur
  | .allocate i :: rest => chronRun rest (cur ++ [.cl i none])
  | .commit i a :: rest => chronRun rest (removeRec i cur ++ [.cl i (some a)])
  | .forget i :: rest => chronRun rest (removeRec i cur)
  | .child i as :: rest => chronRun rest (cur ++ [.rl i (runAtts as [])])

theorem runAtts_eq_chronRun_reverse (atts : List Att) (cur : List Entry) :
    runAtts atts cur = (chronRun atts cur.reverse).reverse := by
  induction atts generalizing cur with
  | nil => simp [runAtts, chronRun]
  | cons a rest ih =>
      cases a with
      | allocate i =>
          simp [runAtts, chronRun, ih, cleanup_allocate]
      | commit i a =>
          simp [runAtts, chronRun, ih, cleanup_commit, removeRec_reverse]
      | forget i =>
          simp [runAtts, chronRun, ih, cleanup_forget, removeRec_reverse]
      | child i as =>
          simp [runAtts, chronRun, ih]

theorem reslist_destroy_eq_join (es : List Entry) :
    reslist_destroy es = (es.map entry_actions).flatten := by
  induction es with
  | nil => simp [reslist_destroy]
  | cons e es ih =>
      cases e with
      | cl j a => cases a <;> simp [reslist_destroy, entry_actions, ih]
      | rl j cs => simp [reslist_destroy, entry_actions, ih]

theorem destroy_runAtts (atts : List Att) :
    reslist_destroy (runAtts atts []) =
      (((chronRun atts []).map entry_actions).reverse).flatten := by
  have h := runAtts_eq_chronRun_reverse atts []
  simp only [List.reverse_nil] at h
  rw [h, reslist_destroy_eq_join, List.map_reverse]

/-- Error information, from `struct errinfo` in `src/util.h`: an error
code, an optional message, and the `want_msg` flag saying whether the
caller wants the message text formatted at all. -/
structure errinfo : Type where
  err : Nat
  msg : Option String
  want_msg : Bool

/-- Modelled from the spec: how a protected unit of work ends — normal
return, or an abort carrying an error code and message (`util.c` with the
bodies of `die`/`catch_error` is not in the snapshot). -/
inductive UnitOutcome : Type where
  | ok
  | err (code : Nat) (msg : String)

/-- Modelled from the spec: a unit of work run under `catch_error`,
abstracted as the attachment sequence it performs on the current reslist
together with how it ends. -/
structure UnitOfWork : Type where
  atts : List Att
  outcome : UnitOutcome

/-- Modelled from the spec: `die` aborts with an explicit error code and
formatted message; control flows to the nearest enclosing
`catch_error`. -/
def die (code : Nat) (msg : String) : UnitOutcome :=
  UnitOutcome.err code msg

/-- Modelled from the spec: `die_errno` aborts with the code taken from
the last OS error (`errno`). -/
def die_errno (errnoVal : Nat) (msg : String) : UnitOutcome :=
  UnitOutcome.err errnoVal msg

/-- POSIX `ENOMEM`. -/
def ENOMEM : Nat := 12

/-- Modelled from the spec: `die_oom` aborts with a fixed out-of-memory
condition. -/
def die_oom : UnitOutcome :=
  UnitOutcome.err ENOMEM ""

/-- Modelled from the spec: `catch_error` runs the unit with a fresh
internal reslist as current.  On normal return it transfers everything
the unit attached to that fresh list onto the reslist that was current at
the time of the call and destroys the now-empty fresh list; on error it
destroys the fresh list and, when `ei` is non-null, sets `ei->err`,
formatting the message text only when `want_msg` is set.  Result:
`(success flag, caller list afterwards, actions run, errinfo
afterwards)`. -/
def catch_error (u : UnitOfWork) (caller : List Entry) (ei : Option errinfo) :
    Bool × List Entry × List (Nat × Nat) × Option errinfo :=
  let fresh := runAtts u.atts []
  match u.outcome with
  | UnitOutcome.ok =>
      let x := reslist_xfer caller fresh
      (true, x.1.1, x.2 ++ reslist_destroy x.1.2, ei)
  | UnitOutcome.err code m =>
      (false, caller, reslist_destroy fresh,
        match ei with
        | none => none
        | some e => some ⟨code, if e.want_msg then some m else none, e.want_msg⟩)

/-- Modelled from the spec: `_reslist_scoped_push` saves the current-list
pointer and installs the scope's fresh list as current; reslists are
identified by number.  Returns `(new current, saved previous)`. -/
def _reslist_scoped_push (cur newList : Nat) : Nat × Nat :=
  (newList, cur)

/-- Modelled from the spec: `_reslist_scoped_pop` restores the saved
current-list pointer (after destroying the scope's list). -/
def _reslist_scoped_pop (saved : Nat) : Nat :=
  saved

/-- Modelled from the spec: `_reslist_guard_push` saves the current-list
pointer and redirects it to an already-existing reslist. -/
def _reslist_guard_push (cur rlId : Nat) : Nat × Nat :=
  (rlId, cur)

/-- Modelled from the spec: `_reslist_guard_pop` restores the saved
current-list pointer. -/
def _reslist_guard_pop (saved : Nat) : Nat :=
  saved

/-- Programs over the allocation-context stack: `scope` is a
`SCOPED_RESLIST` block, `withCur` a `WITH_CURRENT_RESLIST` block, and
`abortNow` a call to `die` inside the block (which unwinds through every
enclosing scope). -/
inductive SProg : Type where
  | nop
  | seq (p q : SProg)
  | scope (body : SProg)
  | withCur (rlId : Nat) (body : SProg)
  | abortNow

/-- Modelled from the spec: run a program over the current-list pointer.
State is `(current reslist id, fresh id supply)`; the result flag is
`true` on normal completion and `false` when an abort unwound the block.
Each scope's epilogue (the `__attribute__((cleanup))` restore in
`SCOPED_RESLIST` / `WITH_CURRENT_RESLIST`) runs on both exit paths. -/
def execS : SProg → Nat → Nat → Bool × Nat × Nat
  | SProg.nop, cur, fresh => (true, cur, fresh)
  | SProg.seq p q, cur, fresh =>
      let r := execS p cur fresh
      if r.1 then execS q r.2.1 r.2.2 else (false, r.2.1, r.2.2)
  | SProg.scope body, cur, fresh =>
      let pushed := _reslist_scoped_push cur fresh
      let r := execS body pushed.1 (fresh + 1)
      (r.1, _reslist_scoped_pop pushed.2, r.2.2)
  | SProg.withCur rlId body, cur, fresh =>
      let pushed := _reslist_guard_push cur rlId
      let r := execS body pushed.1 fresh
      (r.1, _reslist_guard_pop pushed.2, r.2.2)
  | SProg.abortNow, cur, fresh => (false, cur, fresh)

/-- The world of OS file descriptors: which are open, and the next
descriptor number `dup` would hand out. -/
structure fd_world : Type where
  openfds : List Nat
  nextfd : Nat

/-- `struct fdh` from `src/util.h`: a dedicated reslist plus the one
descriptor it owns. -/
structure fdh : Type where
  rl : List Entry
  fd : Nat

/-- Modelled from the spec: `fdh_dup` duplicates an existing descriptor
into a fresh one owned by the handle's own dedicated reslist (via the
allocate/commit protocol, the committed action being "close the
duplicate"); the original descriptor is not taken over.  The close action
of descriptor `d` is encoded as action number `d`. -/
def fdh_dup (fd : Nat) (w : fd_world) : fdh × fd_world :=
  (⟨cleanup_commit w.nextfd w.nextfd (cleanup_allocate w.nextfd []), w.nextfd⟩,
   ⟨w.nextfd :: w.openfds, w.nextfd + 1⟩)

/-- Interpret a teardown trace over the descriptor world: each action
`(rid, d)` closes descriptor `d` (one close per action). -/
def run_close_trace (tr : List (Nat × Nat)) (fds : List Nat) : List Nat :=
  tr.foldl (fun o p => o.erase p.2) fds

/-- Modelled from the spec: `fdh_destroy` destroys the handle's dedicated
reslist, which closes its descriptor; nothing outside that list is
touched. -/
def fdh_destroy (h : fdh) (w : fd_world) : List (Nat × Nat) × fd_world :=
  (reslist_destroy h.rl,
   ⟨run_close_trace (reslist_destroy h.rl) w.openfds, w.nextfd⟩)

theorem mem_destroy_committed (es : List Entry) (i a : Nat)
    (h : (i, a) ∈ reslist_destroy es) : i ∈ committedClRids es := by
  have : i ∈ (reslist_destroy es).map Prod.fst :=
    List.mem_map.mpr ⟨(i, a), h, rfl⟩
  rwa [destroy_map_fst] at this

theorem not_mem_destroy_removeRec (es : List Entry) (i a : Nat) :
    (i, a) ∉ reslist_destroy (removeRec i es) := by
  intro hmem
  have h1 : i ∈ committedClRids (removeRec i es) :=
    mem_destroy_committed _ _ _ hmem
  have h2 : i ∈ clRids (removeRec i es) :=
    (committed_sublist (removeRec i es)).mem h1
  exact not_mem_clRids_removeRec i es h2

/-- C1: destroying a reslist built by an attachment sequence runs, for
each surviving attachment, its committed actions in strict reverse order
of the attachment/commit instants (last attached, first released),
recursing into child lists; and the records whose actions run are exactly
the committed ones, so uncommitted or forgotten records contribute
nothing. -/
theorem reslist_destroy_reverse_attachment (atts : List Att) :
    reslist_destroy (runAtts atts []) =
      (((chronRun atts []).map entry_actions).reverse).flatten ∧
    (reslist_destroy (runAtts atts [])).map Prod.fst =
      committedClRids (runAtts atts []) :=
  ⟨destroy_runAtts atts, destroy_map_fst _⟩

/-- C2: `reslist_xfer` moves every child of the (nonempty) donor onto the
head of the recipient in the donor's original relative order, leaves the
donor empty, runs no cleanup actions, and a later destroy of the
recipient runs the donor's former actions strictly before the recipient's
pre-existing ones. -/
theorem reslist_xfer_moves_donor (A B : List Entry) (hB : B ≠ []) :
    reslist_xfer A B = ((B ++ A, []), []) ∧
    reslist_destroy (B ++ A) = reslist_destroy B ++ reslist_destroy A :=
  ⟨rfl, reslist_destroy_append B A⟩

theorem reslist_xfer_moves_donor_witness :
    ([Entry.cl 2 (some 6)] ≠ ([] : List Entry)) ∧
    (reslist_xfer [Entry.cl 1 (some 5)] [Entry.cl 2 (some 6)] =
        (([Entry.cl 2 (some 6)] ++ [Entry.cl 1 (some 5)], []), []) ∧
      reslist_destroy ([Entry.cl 2 (some 6)] ++ [Entry.cl 1 (some 5)]) =
        reslist_destroy [Entry.cl 2 (some 6)] ++
          reslist_destroy [Entry.cl 1 (some 5)]) :=
  ⟨by simp, reslist_xfer_moves_donor [Entry.cl 1 (some 5)]
    [Entry.cl 2 (some 6)] (by simp)⟩

/-- C3: when the unit of work completes normally, `catch_error` returns
true, transfers everything the unit attached to the fresh internal list
(in its original relative order) onto the list that was current at the
call, and runs no actions; destroying the caller context afterwards
releases the unit's resources before the caller's own, and a unit that
acquires R1, R2, R3 in order has them released R3, R2, R1. -/
theorem catch_error_normal_transfers (atts : List Att) (caller : List Entry)
    (ei : Option errinfo) :
    catch_error ⟨atts, UnitOutcome.ok⟩ caller ei =
      (true, runAtts atts [] ++ caller, [], ei) ∧
    reslist_destroy (runAtts atts [] ++ caller) =
      reslist_destroy (runAtts atts []) ++ reslist_destroy caller ∧
    reslist_destroy ((catch_error
        ⟨[Att.allocate 1, Att.commit 1 101, Att.allocate 2, Att.commit 2 102,
          Att.allocate 3, Att.commit 3 103], UnitOutcome.ok⟩ [] none).2.1) =
      [(3, 103), (2, 102), (1, 101)] := by
  refine ⟨?_, reslist_destroy_append _ _, ?_⟩
  · simp [catch_error, reslist_xfer, reslist_destroy]
  · simp [catch_error, reslist_xfer, runAtts, cleanup_allocate,
      cleanup_commit, cleanup_forget, removeRec, reslist_destroy]

/-- C4: when the unit of work aborts via `die` (or its variants
`die_errno` / `die_oom`), `catch_error` destroys the fresh internal list
— running every committed action, recursively, in reverse-acquisition
(reverse attachment/commit) order — and returns false; a non-null
`errinfo` gets its `err` field set, with the message text produced only
when `want_msg` is set, and a null `errinfo` is left alone. -/
theorem catch_error_abort_unwinds (atts : List Att) (caller : List Entry)
    (code : Nat) (m : String) (e : errinfo) :
    catch_error ⟨atts, die code m⟩ caller (some e) =
      (false, caller, reslist_destroy (runAtts atts []),
        some ⟨code, if e.want_msg then some m else none, e.want_msg⟩) ∧
    (catch_error ⟨atts, die code m⟩ caller none).2.2.2 = none ∧
    reslist_destroy (runAtts atts []) =
      (((chronRun atts []).map entry_actions).reverse).flatten ∧
    (∀ n s, die_errno n s = die n s) ∧ die_oom = die ENOMEM "" := by
  refine ⟨?_, ?_, destroy_runAtts atts, fun n s => rfl, rfl⟩
  · simp [catch_error, die]
  · simp [catch_error, die]

/-- C5: a cleanup record's action runs at most once during teardown
(distinct records give a duplicate-free trace), runs only if the record
reached the committed state, and a record that was unlinked (forgotten)
beforehand never has its action run through the list. -/
theorem cleanup_action_at_most_once (es : List Entry) (i a : Nat)
    (h : (clRids es).Nodup) :
    ((reslist_destroy es).map Prod.fst).Nodup ∧
    ((i, a) ∈ reslist_destroy es → i ∈ committedClRids es) ∧
    ((i, a) ∉ reslist_destroy (removeRec i es)) := by
  refine ⟨?_, mem_destroy_committed es i a, not_mem_destroy_removeRec es i a⟩
  rw [destroy_map_fst]
  exact (committed_sublist es).nodup h

theorem cleanup_action_at_most_once_witness :
    ((clRids [Entry.cl 1 (some 5), Entry.rl 2 [Entry.cl 3 none]]).Nodup) ∧
    (((reslist_destroy
          [Entry.cl 1 (some 5), Entry.rl 2 [Entry.cl 3 none]]).map
        Prod.fst).Nodup ∧
      ((1, 5) ∈ reslist_destroy
          [Entry.cl 1 (some 5), Entry.rl 2 [Entry.cl 3 none]] →
        1 ∈ committedClRids
          [Entry.cl 1 (some 5), Entry.rl 2 [Entry.cl 3 none]]) ∧
      ((1, 5) ∉ reslist_destroy
          (removeRec 1 [Entry.cl 1 (some 5), Entry.rl 2 [Entry.cl 3 none]]))) :=
  ⟨by simp [clRids],
   cleanup_action_at_most_once
     [Entry.cl 1 (some 5), Entry.rl 2 [Entry.cl 3 none]] 1 5
     (by simp [clRids])⟩

/-- C6: `cleanup_commit` binds the action and re-inserts the record at
the head of the current reslist at commit time, not at its
allocation-time position: with record `i` allocated first, record `j`
allocated and committed in between, and `i` committed last, teardown
releases `i` before `j` — release order reflects commit order.  (In the
model `cleanup_commit` is a total function: it cannot fail.) -/
theorem cleanup_commit_reflects_commit_order (cur : List Entry)
    (i j a b : Nat) (hij : i ≠ j) (hi : i ∉ clRids cur)
    (hj : j ∉ clRids cur) :
    reslist_destroy
        (cleanup_commit i a (cleanup_commit j b
          (cleanup_allocate j (cleanup_allocate i cur)))) =
      (i, a) :: (j, b) :: reslist_destroy cur := by
  have h1 : removeRec j cur = cur := removeRec_eq_self j cur hj
  have h2 : removeRec i cur = cur := removeRec_eq_self i cur hi
  simp [cleanup_allocate, cleanup_commit, removeRec, hij, Ne.symm hij,
    h1, h2, reslist_destroy]

theorem cleanup_commit_reflects_commit_order_witness :
    ((1 : Nat) ≠ 2) ∧ ((1 : Nat) ∉ clRids []) ∧ ((2 : Nat) ∉ clRids []) ∧
    reslist_destroy
        (cleanup_commit 1 10 (cleanup_commit 2 20
          (cleanup_allocate 2 (cleanup_allocate 1 [])))) =
      (1, 10) :: (2, 20) :: reslist_destroy [] :=
  ⟨by decide, by simp [clRids], by simp [clRids],
   cleanup_commit_reflects_commit_order [] 1 2 10 20 (by decide)
     (by simp [clRids]) (by simp [clRids])⟩

/-- C7: a record obtained from `cleanup_allocate` that is never committed
is destroyed as a no-op: tearing down the owning list runs no action for
it (and teardown, a total function in the model, completes without
fault). -/
theorem cleanup_allocate_uncommitted_safe (cur : List Entry) (i a : Nat)
    (h : i ∉ committedClRids cur) :
    (i, a) ∉ reslist_destroy (cleanup_allocate i cur) := by
  intro hmem
  have : i ∈ committedClRids (cleanup_allocate i cur) :=
    mem_destroy_committed _ i a hmem
  simp [cleanup_allocate, committedClRids] at this
  exact h this

theorem cleanup_allocate_uncommitted_safe_witness :
    ((1 : Nat) ∉ committedClRids [Entry.cl 2 (some 9)]) ∧
    ((1, 7) ∉ reslist_destroy (cleanup_allocate 1 [Entry.cl 2 (some 9)])) :=
  ⟨by simp [committedClRids],
   cleanup_allocate_uncommitted_safe [Entry.cl 2 (some 9)] 1 7
     (by simp [committedClRids])⟩

/-- C8: every scoped push (`SCOPED_RESLIST`) and guarded push
(`WITH_CURRENT_RESLIST`), nested to any depth, restores the previous
value of the current-list pointer on every exit from its lexical extent,
normal completion and abort alike, so no program over the
allocation-context stack leaves the current-list pointer changed. -/
theorem execS_restores_current (p : SProg) (cur fresh : Nat) :
    (execS p cur fresh).2.1 = cur := by
  induction p generalizing cur fresh with
  | nop => simp [execS]
  | seq p q ihp ihq =>
      simp only [execS]
      by_cases h : (execS p cur fresh).1
      · simp only [h, if_true]
        rw [ihq, ihp]
      · simp only [h, if_false]
        exact ihp cur fresh
  | scope body ih =>
      simp [execS, _reslist_scoped_push, _reslist_scoped_pop]
  | withCur rlId body ih =>
      simp [execS, _reslist_guard_push, _reslist_guard_pop]
  | abortNow => simp [execS]

/-- C9: `cleanup_forget` on a NULL pointer is a no-op that leaves every
list unchanged, and `cleanup_forget` never runs the record's action: it
is a total function, and after forgetting record `i` no action of `i` can
run from the resulting list. -/
theorem cleanup_forget_null_noop (es : List Entry) (i a : Nat) :
    cleanup_forget none es = es ∧
    (i, a) ∉ reslist_destroy (cleanup_forget (some i) es) := by
  refine ⟨rfl, ?_⟩
  simp only [cleanup_forget]
  exact not_mem_destroy_removeRec es i a

/-- C10: `fdh_dup` does not take ownership of the descriptor it is given:
it stores a fresh duplicate in the handle's dedicated reslist, the
original descriptor stays open, and `fdh_destroy` closes only the
handle's duplicate, exactly once, leaving the original open. -/
theorem fdh_dup_no_ownership (w : fd_world) (fd : Nat)
    (hfd : fd ∈ w.openfds) (hwf : ∀ d ∈ w.openfds, d < w.nextfd) :
    (fdh_dup fd w).1.fd ≠ fd ∧
    fd ∈ (fdh_dup fd w).2.openfds ∧
    (fdh_dup fd w).1.fd ∈ (fdh_dup fd w).2.openfds ∧
    (fdh_destroy (fdh_dup fd w).1 (fdh_dup fd w).2).1 =
      [((fdh_dup fd w).1.fd, (fdh_dup fd w).1.fd)] ∧
    fd ∈ (fdh_destroy (fdh_dup fd w).1 (fdh_dup fd w).2).2.openfds ∧
    (fdh_dup fd w).1.fd ∉
      (fdh_destroy (fdh_dup fd w).1 (fdh_dup fd w).2).2.openfds := by
  have hne : w.nextfd ≠ fd := fun hEq => absurd (hwf fd hfd) (by omega)
  have hnotmem : w.nextfd ∉ w.openfds := fun hmem =>
    absurd (hwf w.nextfd hmem) (by omega)
  have hrl : (fdh_dup fd w).1.rl = [Entry.cl w.nextfd (some w.nextfd)] := by
    simp [fdh_dup, cleanup_commit, cleanup_allocate, removeRec]
  have htr : (fdh_destroy (fdh_dup fd w).1 (fdh_dup fd w).2).1 =
      [(w.nextfd, w.nextfd)] := by
    simp [fdh_destroy, hrl, reslist_destroy]
  have hafter : (fdh_destroy (fdh_dup fd w).1 (fdh_dup fd w).2).2.openfds =
      w.openfds := by
    simp [fdh_destroy, fdh_dup, cleanup_commit, cleanup_allocate,
      removeRec, reslist_destroy, run_close_trace, List.erase_cons_head]
  refine ⟨?_, ?_, ?_, ?_, ?_, ?_⟩
  · simpa [fdh_dup] using hne
  · simp [fdh_dup, hfd]
  · simp [fdh_dup]
  · simpa [fdh_dup] using htr
  · rw [hafter]; exact hfd
  · rw [hafter]; simpa [fdh_dup] using hnotmem

theorem fdh_dup_no_ownership_witness :
    ((3 : Nat) ∈ (fd_world.mk [3] 4).openfds) ∧
    (∀ d ∈ (fd_world.mk [3] 4).openfds, d < (fd_world.mk [3] 4).nextfd) ∧
    ((fdh_dup 3 (fd_world.mk [3] 4)).1.fd ≠ 3 ∧
      3 ∈ (fdh_dup 3 (fd_world.mk [3] 4)).2.openfds ∧
      (fdh_dup 3 (fd_world.mk [3] 4)).1.fd ∈
        (fdh_dup 3 (fd_world.mk [3] 4)).2.openfds ∧
      (fdh_destroy (fdh_dup 3 (fd_world.mk [3] 4)).1
          (fdh_dup 3 (fd_world.mk [3] 4)).2).1 =
        [((fdh_dup 3 (fd_world.mk [3] 4)).1.fd,
          (fdh_dup 3 (fd_world.mk [3] 4)).1.fd)] ∧
      3 ∈ (fdh_destroy (fdh_dup 3 (fd_world.mk [3] 4)).1
          (fdh_dup 3 (fd_world.mk [3] 4)).2).2.openfds ∧
      (fdh_dup 3 (fd_world.mk [3] 4)).1.fd ∉
        (fdh_destroy (fdh_dup 3 (fd_world.mk [3] 4)).1
          (fdh_dup 3 (fd_world.mk [3] 4)).2).2.openfds) :=
  ⟨by simp, by simp, fdh_dup_no_ownership (fd_world.mk [3] 4) 3 (by simp)
    (by simp)⟩
